import Mathlib

/-!
Shallow embedding of the example modules of the ts-testing-setup repository:
the stateful accumulator class in src/Calculator.ts and the pure helper
functions in src/utils.ts.

Modelling choices:
* JavaScript numbers are modelled as rationals, so that division and the
  remainder operator are exact; none of the properties below depends on
  floating-point rounding.
* JavaScript strings are modelled as Lean strings (lists of characters);
  the regex character class of non-whitespace, non-at characters is
  modelled with Char.isWhitespace.
* Values of TypeScript type unknown (the argument of getErrorMessage) are
  modelled by the inductive type JSValue below.
* A method that can throw is embedded as a function returning Except;
  the uniform step function returns the possible exception message together
  with the state of the object after the call (on a throw the state is the
  entry state, since the only statement before the throw is the test).
-/

namespace TsSetup

/-- Truncation toward zero, the rounding used by the JavaScript
remainder operator a % b = a - b * trunc (a / b).  On the reduced
fraction num / den (den positive) this is the truncated integer
division of the numerator by the denominator. -/
def jsTrunc (q : ℚ) : ℤ :=
  q.num.tdiv q.den

/-- The JavaScript remainder a % b (for a finite nonzero divisor):
a - b * trunc (a / b); the sign of the result follows the dividend. -/
def jsMod (a b : ℚ) : ℚ :=
  a - b * (jsTrunc (a / b) : ℚ)

/-- The Calculator class of src/Calculator.ts: a single private
numeric register, field value. -/
structure Calculator where
  value : ℚ
deriving DecidableEq, Repr

namespace Calculator

/-- constructor(initialValue: number = 0) sets value = initialValue.
The TypeScript default argument is 0; callers of the default pass 0 here. -/
def init (initialValue : ℚ) : Calculator := ⟨initialValue⟩

/-- add(n): this.value += n; return this. -/
def add (c : Calculator) (n : ℚ) : Calculator := ⟨c.value + n⟩

/-- subtract(n): this.value -= n; return this. -/
def subtract (c : Calculator) (n : ℚ) : Calculator := ⟨c.value - n⟩

/-- multiply(n): this.value *= n; return this. -/
def multiply (c : Calculator) (n : ℚ) : Calculator := ⟨c.value * n⟩

/-- divide(n): if (n === 0) throw new Error("Division by zero");
this.value /= n; return this.  The throw is embedded as Except.error. -/
def divide (c : Calculator) (n : ℚ) : Except String Calculator :=
  if n = 0 then Except.error "Division by zero"
  else Except.ok ⟨c.value / n⟩

/-- getValue(): return this.value. -/
def getValue (c : Calculator) : ℚ := c.value

/-- reset(): this.value = 0. -/
def reset (_c : Calculator) : Calculator := ⟨0⟩

/-- setValue(n): this.value = n; return this. -/
def setValue (_c : Calculator) (n : ℚ) : Calculator := ⟨n⟩

/-- isEven(): return this.value % 2 === 0. -/
def isEven (c : Calculator) : Bool := decide (jsMod c.value 2 = 0)

/-- isPositive(): return this.value > 0. -/
def isPositive (c : Calculator) : Bool := decide (c.value > 0)

end Calculator

/-- One method call on a Calculator object (the whole public surface). -/
inductive Op where
  | add (n : ℚ)
  | subtract (n : ℚ)
  | multiply (n : ℚ)
  | divide (n : ℚ)
  | setValue (n : ℚ)
  | reset
  | getValue
  | isEven
  | isPositive
deriving DecidableEq, Repr

/-- Effect of one method call on the object state: the possible thrown
exception message, paired with the state of the object after the call.
In divide the throw happens before the register is assigned, so on the
error path the state is the entry state; observer methods do not assign
the register at all. -/
def Calculator.step (c : Calculator) : Op → Option String × Calculator
  | .add n => (none, c.add n)
  | .subtract n => (none, c.subtract n)
  | .multiply n => (none, c.multiply n)
  | .divide n =>
    match c.divide n with
    | .ok c2 => (none, c2)
    | .error e => (some e, c)
  | .setValue n => (none, c.setValue n)
  | .reset => (none, c.reset)
  | .getValue => (none, c)
  | .isEven => (none, c)
  | .isPositive => (none, c)

/-- Run a sequence of method calls, keeping only the object state. -/
def runOps (c : Calculator) (ops : List Op) : Calculator :=
  ops.foldl (fun s op => (s.step op).snd) c

namespace Utils

/-- add(a, b): return a + b. -/
def add (a b : ℚ) : ℚ := a + b

/-- subtract(a, b): return a - b. -/
def subtract (a b : ℚ) : ℚ := a - b

/-- multiply(a, b): return a * b. -/
def multiply (a b : ℚ) : ℚ := a * b

/-- A JavaScript value of TypeScript type unknown, as getErrorMessage can
receive it: an Error instance with its message field, a string, a number
(integral numbers suffice for the properties below), a boolean, null,
undefined, or a plain object given by its own enumerable fields. -/
inductive JSValue where
  | vError (message : String)
  | vStr (s : String)
  | vNum (n : ℤ)
  | vBool (b : Bool)
  | vNull
  | vUndefined
  | vObj (fields : List (String × JSValue))

/-- The JavaScript String(x) coercion on the modelled values:
Error instances print as Error: message, numbers in decimal, booleans as
true or false, null and undefined by their names, plain objects as
[object Object]. -/
def jsString : JSValue → String
  | .vError m => if m = "" then "Error" else "Error: " ++ m
  | .vStr s => s
  | .vNum n => toString n
  | .vBool b => if b then "true" else "false"
  | .vNull => "null"
  | .vUndefined => "undefined"
  | .vObj _ => "[object Object]"

/-- getErrorMessage(error: unknown) of src/utils.ts, with the source's
test order: first error instanceof Error (return error.message), then
typeof error === "string" (return error), then
error truthy and typeof object and "message" in error
(return String(error.message)), else "Unknown error".
Among the modelled values the third test holds exactly for a plain object
owning a message field: null is not truthy, numbers, booleans and
undefined are not of typeof object, and Error instances are caught by the
first test. -/
def getErrorMessage : JSValue → String
  | .vError m => m
  | .vStr s => s
  | .vObj fields =>
    match fields.lookup "message" with
    | some v => jsString v
    | none => "Unknown error"
  | _ => "Unknown error"

/-- A character matched by the regex class of non-whitespace,
non-at characters. -/
def nonSpecial (c : Char) : Bool := !(c.isWhitespace || c == '@')

/-- Matcher for the final piece of the email regex: one or more
nonSpecial characters up to the end anchor. -/
def seg (l : List Char) : Bool := !l.isEmpty && l.all nonSpecial

/-- Matcher for zero or more nonSpecial characters, a literal dot, then
one or more nonSpecial characters up to the end anchor (the dot itself is
a nonSpecial character, hence the backtracking disjunction). -/
def dotSeg : List Char → Bool
  | [] => false
  | c :: cs => (c == '.' && seg cs) || (nonSpecial c && dotSeg cs)

/-- Matcher for the domain part of the email regex: one or more
nonSpecial characters, a literal dot, one or more nonSpecial characters,
up to the end anchor. -/
def domainSeg : List Char → Bool
  | [] => false
  | c :: cs => nonSpecial c && dotSeg cs

/-- Matcher for zero or more further local-part characters, the literal
at sign, then the domain part. -/
def localSeg : List Char → Bool
  | [] => false
  | c :: cs => (c == '@' && domainSeg cs) || (nonSpecial c && localSeg cs)

/-- Matcher for the whole anchored email regex: one or more nonSpecial
characters, an at sign, one or more nonSpecial characters, a dot, one or
more nonSpecial characters. -/
def emailMatch : List Char → Bool
  | [] => false
  | c :: cs => nonSpecial c && localSeg cs

/-- isValidEmail(email) of src/utils.ts: test of the anchored regex
described above against the whole string. -/
def isValidEmail (s : String) : Bool := emailMatch s.data

/-- capitalize(str) of src/utils.ts: the empty string is returned
unchanged (the falsy test), otherwise the first character is upper-cased
and the remaining characters are appended exactly as given. -/
def capitalize (s : String) : String :=
  match s with
  | ⟨[]⟩ => s
  | ⟨c :: cs⟩ => ⟨c.toUpper :: cs⟩

end Utils

/-! Helper lemmas. -/

theorem tdiv_one_eq (k : ℤ) : k.tdiv 1 = k := by
  cases k with
  | ofNat m =>
    show Int.ofNat (m / 1) = Int.ofNat m
    rw [Nat.div_one]
  | negSucc m =>
    show -Int.ofNat (m.succ / 1) = Int.negSucc m
    rw [Nat.div_one, Int.negSucc_eq]
    rfl

theorem jsTrunc_intCast (k : ℤ) : jsTrunc (k : ℚ) = k := by
  unfold jsTrunc
  rw [Rat.num_intCast, Rat.den_intCast]
  exact tdiv_one_eq k

/-- On an integer register, the JavaScript test value % 2 === 0 holds
exactly for the (mathematically) even integers. -/
theorem jsMod_two_int (n : ℤ) : jsMod (n : ℚ) 2 = 0 ↔ (2 : ℤ) ∣ n := by
  constructor
  · intro h
    unfold jsMod at h
    have h2 : (n : ℚ) = 2 * (jsTrunc ((n : ℚ) / 2) : ℚ) := by linarith
    have h3 : n = 2 * jsTrunc ((n : ℚ) / 2) := by exact_mod_cast h2
    exact ⟨_, h3⟩
  · rintro ⟨k, rfl⟩
    have hdiv : ((2 * k : ℤ) : ℚ) / 2 = (k : ℚ) := by push_cast; ring
    unfold jsMod
    rw [hdiv, jsTrunc_intCast]
    push_cast
    ring

theorem charToUpper_idem (c : Char) : c.toUpper.toUpper = c.toUpper := by
  by_cases h : c.toNat ≥ 97 ∧ c.toNat ≤ 122
  · have e : c.toUpper = Char.ofNat (c.toNat - 32) := by
      unfold Char.toUpper
      rw [if_pos h]
    rw [e]
    obtain ⟨h1, h2⟩ := h
    generalize c.toNat = n at h1 h2
    interval_cases n <;> decide
  · have e : c.toUpper = c := by
      unfold Char.toUpper
      rw [if_neg h]
    rw [e, e]

namespace Utils

theorem seg_iff (l : List Char) :
    seg l = true ↔ l ≠ [] ∧ ∀ x ∈ l, nonSpecial x = true := by
  cases l <;> simp [seg]

theorem dotSeg_iff (l : List Char) :
    dotSeg l = true ↔
      ∃ b c, l = b ++ '.' :: c ∧ (∀ x ∈ b, nonSpecial x = true)
        ∧ c ≠ [] ∧ (∀ x ∈ c, nonSpecial x = true) := by
  induction l with
  | nil =>
    simp only [dotSeg]
    constructor
    · intro h; cases h
    · rintro ⟨b, c, hl, -⟩
      exact absurd hl.symm (List.append_ne_nil_of_right_ne_nil b (by simp))
  | cons x xs ih =>
    simp only [dotSeg, Bool.or_eq_true, Bool.and_eq_true, beq_iff_eq]
    constructor
    · rintro (⟨hx, hseg⟩ | ⟨hx, hrec⟩)
      · obtain ⟨hne, hall⟩ := (seg_iff xs).mp hseg
        exact ⟨[], xs, by rw [hx]; rfl, by simp, hne, hall⟩
      · obtain ⟨b, c, hl, hb, hc, hcall⟩ := ih.mp hrec
        refine ⟨x :: b, c, by rw [hl]; rfl, ?_, hc, hcall⟩
        intro y hy
        rcases List.mem_cons.mp hy with h | h
        · exact h ▸ hx
        · exact hb y h
    · rintro ⟨b, c, hl, hb, hc, hcall⟩
      cases b with
      | nil =>
        injection hl with hx hxs
        left
        exact ⟨hx, (seg_iff xs).mpr ⟨hxs ▸ hc, hxs ▸ hcall⟩⟩
      | cons y b2 =>
        injection hl with hx hxs
        right
        refine ⟨hx ▸ hb y (by simp), ih.mpr ⟨b2, c, hxs, ?_, hc, hcall⟩⟩
        intro z hz
        exact hb z (List.mem_cons_of_mem y hz)

theorem domainSeg_iff (l : List Char) :
    domainSeg l = true ↔
      ∃ b c, l = b ++ '.' :: c ∧ b ≠ [] ∧ (∀ x ∈ b, nonSpecial x = true)
        ∧ c ≠ [] ∧ (∀ x ∈ c, nonSpecial x = true) := by
  cases l with
  | nil =>
    simp only [domainSeg]
    constructor
    · intro h; cases h
    · rintro ⟨b, c, hl, -⟩
      exact absurd hl.symm (List.append_ne_nil_of_right_ne_nil b (by simp))
  | cons x xs =>
    simp only [domainSeg, Bool.and_eq_true]
    constructor
    · rintro ⟨hx, hrec⟩
      obtain ⟨b, c, hl, hb, hc, hcall⟩ := (dotSeg_iff xs).mp hrec
      refine ⟨x :: b, c, by rw [hl]; rfl, by simp, ?_, hc, hcall⟩
      intro y hy
      rcases List.mem_cons.mp hy with h | h
      · exact h ▸ hx
      · exact hb y h
    · rintro ⟨b, c, hl, hbne, hb, hc, hcall⟩
      cases b with
      | nil => exact absurd rfl hbne
      | cons y b2 =>
        injection hl with hx hxs
        refine ⟨hx ▸ hb y (by simp), (dotSeg_iff xs).mpr ⟨b2, c, hxs, ?_, hc, hcall⟩⟩
        intro z hz
        exact hb z (List.mem_cons_of_mem y hz)

theorem localSeg_iff (l : List Char) :
    localSeg l = true ↔
      ∃ a d, l = a ++ '@' :: d ∧ (∀ x ∈ a, nonSpecial x = true)
        ∧ domainSeg d = true := by
  induction l with
  | nil =>
    simp only [localSeg]
    constructor
    · intro h; cases h
    · rintro ⟨a, d, hl, -⟩
      exact absurd hl.symm (List.append_ne_nil_of_right_ne_nil a (by simp))
  | cons x xs ih =>
    simp only [localSeg, Bool.or_eq_true, Bool.and_eq_true, beq_iff_eq]
    constructor
    · rintro (⟨hx, hdom⟩ | ⟨hx, hrec⟩)
      · exact ⟨[], xs, by rw [hx]; rfl, by simp, hdom⟩
      · obtain ⟨a, d, hl, ha, hdom⟩ := ih.mp hrec
        refine ⟨x :: a, d, by rw [hl]; rfl, ?_, hdom⟩
        intro y hy
        rcases List.mem_cons.mp hy with h | h
        · exact h ▸ hx
        · exact ha y h
    · rintro ⟨a, d, hl, ha, hdom⟩
      cases a with
      | nil =>
        injection hl with hx hxs
        exact Or.inl ⟨hx, hxs ▸ hdom⟩
      | cons y a2 =>
        injection hl with hx hxs
        refine Or.inr ⟨hx ▸ ha y (by simp), ih.mpr ⟨a2, d, hxs, ?_, hdom⟩⟩
        intro z hz
        exact ha z (List.mem_cons_of_mem y hz)

theorem emailMatch_iff (l : List Char) :
    emailMatch l = true ↔
      ∃ a d, l = a ++ '@' :: d ∧ a ≠ [] ∧ (∀ x ∈ a, nonSpecial x = true)
        ∧ domainSeg d = true := by
  cases l with
  | nil =>
    simp only [emailMatch]
    constructor
    · intro h; cases h
    · rintro ⟨a, d, hl, -⟩
      exact absurd hl.symm (List.append_ne_nil_of_right_ne_nil a (by simp))
  | cons x xs =>
    simp only [emailMatch, Bool.and_eq_true]
    constructor
    · rintro ⟨hx, hrec⟩
      obtain ⟨a, d, hl, ha, hdom⟩ := (localSeg_iff xs).mp hrec
      refine ⟨x :: a, d, by rw [hl]; rfl, by simp, ?_, hdom⟩
      intro y hy
      rcases List.mem_cons.mp hy with h | h
      · exact h ▸ hx
      · exact ha y h
    · rintro ⟨a, d, hl, hane, ha, hdom⟩
      cases a with
      | nil => exact absurd rfl hane
      | cons y a2 =>
        injection hl with hx hxs
        refine ⟨hx ▸ ha y (by simp), (localSeg_iff xs).mpr ⟨a2, d, hxs, ?_, hdom⟩⟩
        intro z hz
        exact ha z (List.mem_cons_of_mem y hz)

theorem nonSpecial_iff (x : Char) :
    nonSpecial x = true ↔ ¬x.isWhitespace ∧ x ≠ '@' := by
  simp [nonSpecial]

end Utils

/-! Claim theorems. -/

/-- C1: a Calculator method call fails (throws) exactly when it is divide
with divisor 0; the thrown error is Division by zero and on that failure
the register value is left unchanged; every other operation (add,
subtract, multiply, setValue, reset, getValue, isEven, isPositive) and
divide with a nonzero divisor never fails. -/
theorem divide_fails_iff_divisor_zero (c : Calculator) (op : Op) :
    ((c.step op).fst ≠ none ↔ op = Op.divide 0)
    ∧ c.step (Op.divide 0) = (some "Division by zero", c) := by
  constructor
  · cases op with
    | divide n =>
      by_cases hn : n = 0
      · subst hn
        simp [Calculator.step, Calculator.divide]
      · simp [Calculator.step, Calculator.divide, hn]
    | add n => simp [Calculator.step]
    | subtract n => simp [Calculator.step]
    | multiply n => simp [Calculator.step]
    | setValue n => simp [Calculator.step]
    | reset => simp [Calculator.step]
    | getValue => simp [Calculator.step]
    | isEven => simp [Calculator.step]
    | isPositive => simp [Calculator.step]
  · simp [Calculator.step, Calculator.divide]

/-- C2: getErrorMessage never throws (it is total) and resolves its input
in priority order: the message field of an Error instance; a string
unchanged; the message property of a non-null object coerced to a string
(so an object with message 404 yields the string 404); otherwise the
literal fallback Unknown error, in particular for null, undefined,
numbers, booleans and plain objects without a message property. -/
theorem getErrorMessage_resolution :
    (∀ m, Utils.getErrorMessage (.vError m) = m)
    ∧ (∀ s, Utils.getErrorMessage (.vStr s) = s)
    ∧ (∀ fields, Utils.getErrorMessage (.vObj fields) =
        match fields.lookup "message" with
        | some v => Utils.jsString v
        | none => "Unknown error")
    ∧ Utils.getErrorMessage (.vObj [("message", .vNum 404)]) = "404"
    ∧ Utils.getErrorMessage .vNull = "Unknown error"
    ∧ Utils.getErrorMessage .vUndefined = "Unknown error"
    ∧ (∀ n, Utils.getErrorMessage (.vNum n) = "Unknown error")
    ∧ (∀ b, Utils.getErrorMessage (.vBool b) = "Unknown error")
    ∧ Utils.getErrorMessage (.vObj []) = "Unknown error" := by
  refine ⟨fun m => rfl, fun s => rfl, fun fields => rfl, ?_,
    rfl, rfl, fun n => rfl, fun b => rfl, rfl⟩
  decide

/-- C3: isValidEmail accepts exactly the strings of the anchored shape
one or more non-space non-at characters, an at sign, one or more
non-space non-at characters, a dot, one or more non-space non-at
characters; in particular user@example.com is accepted while
user@example (no dot after the at sign), user @example.com (embedded
space) and the empty string are rejected. -/
theorem isValidEmail_iff_pattern :
    (∀ s : String, Utils.isValidEmail s = true ↔
      ∃ a b c : List Char, s.data = a ++ '@' :: (b ++ '.' :: c)
        ∧ a ≠ [] ∧ b ≠ [] ∧ c ≠ []
        ∧ (∀ x, x ∈ a ++ b ++ c → ¬x.isWhitespace ∧ x ≠ '@'))
    ∧ Utils.isValidEmail "user@example.com" = true
    ∧ Utils.isValidEmail "user@example" = false
    ∧ Utils.isValidEmail "user @example.com" = false
    ∧ Utils.isValidEmail "" = false := by
  refine ⟨?_, by decide, by decide, by decide, by decide⟩
  intro s
  rw [show Utils.isValidEmail s = Utils.emailMatch s.data from rfl,
    Utils.emailMatch_iff]
  constructor
  · rintro ⟨a, d, hl, hane, ha, hdom⟩
    obtain ⟨b, c, hd, hbne, hb, hcne, hc⟩ := (Utils.domainSeg_iff d).mp hdom
    refine ⟨a, b, c, by rw [hl, hd], hane, hbne, hcne, ?_⟩
    intro x hx
    simp only [List.mem_append] at hx
    rcases hx with hx | hx
    · rcases hx with hx | hx
      · exact (Utils.nonSpecial_iff x).mp (ha x hx)
      · exact (Utils.nonSpecial_iff x).mp (hb x hx)
    · exact (Utils.nonSpecial_iff x).mp (hc x hx)
  · rintro ⟨a, b, c, hl, hane, hbne, hcne, hall⟩
    refine ⟨a, b ++ '.' :: c, hl, hane, ?_, ?_⟩
    · intro x hx
      exact (Utils.nonSpecial_iff x).mpr
        (hall x (by simp only [List.mem_append]; left; left; exact hx))
    · refine (Utils.domainSeg_iff (b ++ '.' :: c)).mpr
        ⟨b, c, rfl, hbne, ?_, hcne, ?_⟩
      · intro x hx
        exact (Utils.nonSpecial_iff x).mpr
          (hall x (by simp only [List.mem_append]; left; right; exact hx))
      · intro x hx
        exact (Utils.nonSpecial_iff x).mpr
          (hall x (by simp only [List.mem_append]; right; exact hx))

/-- C4: capitalize returns the empty string unchanged, and on a
non-empty string returns the first character upper-cased followed by the
remaining characters exactly as given (the tail is never lower-cased);
hello becomes Hello, the empty string stays empty, WORLD stays WORLD. -/
theorem capitalize_first_upper :
    Utils.capitalize "" = ""
    ∧ (∀ (c : Char) (cs : List Char),
        Utils.capitalize ⟨c :: cs⟩ = ⟨c.toUpper :: cs⟩)
    ∧ Utils.capitalize "hello" = "Hello"
    ∧ Utils.capitalize "WORLD" = "WORLD" := by
  refine ⟨rfl, fun c cs => rfl, by decide, by decide⟩

/-- C5: isEven holds exactly when the register value taken modulo 2 (the
JavaScript remainder) equals 0; on an integer register that is exactly
divisibility by 2, so it holds for 0, for the negative even value -4,
and fails for the odd value 3. -/
theorem isEven_iff_mod_two :
    (∀ c : Calculator, c.isEven = true ↔ jsMod c.value 2 = 0)
    ∧ (∀ n : ℤ, (Calculator.mk (n : ℚ)).isEven = true ↔ 2 ∣ n)
    ∧ (Calculator.mk 0).isEven = true
    ∧ (Calculator.mk (-4)).isEven = true
    ∧ (Calculator.mk 3).isEven = false := by
  have h1 : ∀ c : Calculator, c.isEven = true ↔ jsMod c.value 2 = 0 := by
    intro c
    simp [Calculator.isEven]
  have h2 : ∀ n : ℤ, (Calculator.mk (n : ℚ)).isEven = true ↔ 2 ∣ n := by
    intro n
    rw [h1]
    exact jsMod_two_int n
  refine ⟨h1, h2, ?_, ?_, ?_⟩
  · have h := (h2 0).mpr ⟨0, by norm_num⟩
    simpa using h
  · have h := (h2 (-4)).mpr ⟨-2, by norm_num⟩
    simpa using h
  · have h3 := h2 3
    rw [show ((3 : ℤ) : ℚ) = (3 : ℚ) by norm_num] at h3
    rw [Bool.eq_false_iff]
    intro hc
    exact absurd (h3.mp hc) (by decide)

/-- C6: isPositive holds exactly when the register value is strictly
greater than 0; it is false at 0 and at the negative value -3, true at
the positive value 2. -/
theorem isPositive_iff_pos :
    (∀ c : Calculator, c.isPositive = true ↔ c.value > 0)
    ∧ (Calculator.mk 0).isPositive = false
    ∧ (Calculator.mk (-3)).isPositive = false
    ∧ (Calculator.mk 2).isPositive = true := by
  have h1 : ∀ c : Calculator, c.isPositive = true ↔ c.value > 0 := by
    intro c
    simp [Calculator.isPositive]
  refine ⟨h1, ?_, ?_, ?_⟩
  · rw [Bool.eq_false_iff]
    intro hc
    exact absurd ((h1 _).mp hc) (by norm_num)
  · rw [Bool.eq_false_iff]
    intro hc
    exact absurd ((h1 _).mp hc) (by norm_num)
  · exact (h1 _).mpr (by norm_num)

/-- C7: the pure helper add is commutative and the pure helper subtract
is antisymmetric: subtract a b equals the negation of subtract b a. -/
theorem helper_add_comm_subtract_neg (a b : ℚ) :
    Utils.add a b = Utils.add b a
    ∧ Utils.subtract a b = -(Utils.subtract b a) := by
  unfold Utils.add Utils.subtract
  constructor
  · ring
  · ring

/-- C8: starting from the default initial value 0, the chain add 10,
multiply 2, subtract 5, divide 3 succeeds and yields a final value
within 0.01 of 5 (here exactly 5, the arithmetic being exact). -/
theorem chain_scenario_value :
    ∃ c : Calculator,
      ((((Calculator.init 0).add 10).multiply 2).subtract 5).divide 3
        = Except.ok c
      ∧ |c.getValue - 5| < 1 / 100 := by
  refine ⟨⟨5⟩, ?_, ?_⟩
  · show Calculator.divide ⟨((0 + 10) * 2 - 5 : ℚ)⟩ 3 = Except.ok ⟨5⟩
    unfold Calculator.divide
    rw [if_neg (by norm_num : ¬(3 : ℚ) = 0)]
    have h : (((0 : ℚ) + 10) * 2 - 5) / 3 = 5 := by norm_num
    rw [h]
  · show |(5 : ℚ) - 5| < 1 / 100
    norm_num

/-- C9: the observer calls getValue, isEven and isPositive never modify
the register: any sequence of them leaves the object state unchanged. -/
theorem observers_preserve_value (c : Calculator) (ops : List Op)
    (h : ∀ op ∈ ops, op = Op.getValue ∨ op = Op.isEven ∨ op = Op.isPositive) :
    runOps c ops = c := by
  induction ops generalizing c with
  | nil => rfl
  | cons op rest ih =>
    have hstep : (c.step op).snd = c := by
      rcases h op (List.mem_cons_self op rest) with h1 | h1 | h1 <;>
        subst h1 <;> rfl
    have hrun : runOps c (op :: rest) = runOps (c.step op).snd rest := rfl
    rw [hrun, hstep]
    exact ih c (fun o ho => h o (List.mem_cons_of_mem op ho))

/-- Witness for C9 at a concrete state and a concrete observer
sequence. -/
theorem observers_preserve_value_witness :
    runOps ⟨7⟩ [Op.isEven, Op.getValue, Op.isPositive] = ⟨7⟩ :=
  observers_preserve_value ⟨7⟩ [Op.isEven, Op.getValue, Op.isPositive]
    (by decide)

/-- C10: capitalize is idempotent: applying it twice gives the same
result as applying it once, since the upper-casing of a character is
itself fixed by upper-casing and the tail is untouched. -/
theorem capitalize_idempotent (s : String) :
    Utils.capitalize (Utils.capitalize s) = Utils.capitalize s := by
  obtain ⟨data⟩ := s
  cases data with
  | nil => rfl
  | cons c cs =>
    show (⟨c.toUpper.toUpper :: cs⟩ : String) = ⟨c.toUpper :: cs⟩
    rw [charToUpper_idem]

end TsSetup
